import Mathlib

/-!
Verification of the TypeDoc indexing/query core (`TypeDocParser`).

The development shallowly embeds the parser class of the source: its four
index structures (ID, name, path, kind), the recursive `buildIndex`
traversal and the query operations `findByName`, `findByPath`,
`findByKind`, `getById`, `getStats`, plus the internal helpers
`createParsedSymbol`, `getPath` and `getKindString`.

JavaScript `Map` objects are modelled as association lists with the
insertion-order semantics of `Map`: `set` on an existing key updates the
value in place (keeping the original position), `set` on a fresh key
appends, and iteration follows the list order.  Strings are modelled as
`List Char`; the JavaScript truthiness tests of the source (`!id`,
`node.kind`, `parentPath ? ... : ...`, `kindString || ...`) are modelled
explicitly as tests against `0`, `none`, and the empty list.
-/

namespace TsdocMcp

/-- JavaScript `Map.get`: the value at the first (hence only) entry with the
given key, if any. -/
def mapGet {α β : Type} [DecidableEq α] : List (α × β) → α → Option β
  | [], _ => none
  | (k, v) :: rest, a => if k = a then some v else mapGet rest a

/-- JavaScript `Map.set`: update the value in place when the key is present,
append a fresh entry otherwise. -/
def mapSet {α β : Type} [DecidableEq α] : List (α × β) → α → β → List (α × β)
  | [], a, b => [(a, b)]
  | (k, v) :: rest, a, b => if k = a then (a, b) :: rest else (k, v) :: mapSet rest a b

/-- Reflection node of the TypeDoc JSON tree (`src/types/typedoc.ts`).  Only
the fields the indexing core reads are carried: `id`, `name`, `kind`,
`kindString`, `children` and `signatures`.  `kind` and `kindString` are
optional because the parser guards them with truthiness tests; the remaining
metadata of a reflection is opaque payload to the core. -/
inductive Reflection : Type where
  | mk (id : Nat) (name : List Char) (kind : Option Nat) (kindString : Option (List Char))
       (children : List Reflection) (signatures : List Reflection)

/-- Field accessor for `id`. -/
def Reflection.id : Reflection → Nat
  | .mk i _ _ _ _ _ => i

/-- Field accessor for `name`. -/
def Reflection.name : Reflection → List Char
  | .mk _ nm _ _ _ _ => nm

/-- Field accessor for `kind`. -/
def Reflection.kind : Reflection → Option Nat
  | .mk _ _ k _ _ _ => k

/-- Field accessor for `kindString`. -/
def Reflection.kindString : Reflection → Option (List Char)
  | .mk _ _ _ ks _ _ => ks

/-- Field accessor for `children`. -/
def Reflection.children : Reflection → List Reflection
  | .mk _ _ _ _ cs _ => cs

/-- Field accessor for `signatures`. -/
def Reflection.signatures : Reflection → List Reflection
  | .mk _ _ _ _ _ sgs => sgs

/-- The four index structures owned by `TypeDocParser`: `index` (ID Index),
`nameIndex`, `pathIndex` and `kindIndex`. -/
structure ParserState where
  index : List (Nat × Reflection)
  nameIndex : List (List Char × List Nat)
  pathIndex : List (List Char × Nat)
  kindIndex : List (Nat × List Nat)

/-- State of a freshly constructed parser, before any load. -/
def initState : ParserState :=
  { index := [], nameIndex := [], pathIndex := [], kindIndex := [] }

/-- Path computation of `buildIndex`:
`parentPath ? parentPath + "." + node.name : node.name`, with the empty
string being the only falsy string value used here. -/
def joinPath (parentPath nm : List Char) : List Char :=
  if parentPath = [] then nm else parentPath ++ ('.' :: nm)

mutual
/-- The recursive `TypeDocParser.buildIndex(node, parentPath)`: insert the
node into the ID Index, compute its full path, register it in the path,
name and kind indices (the kind only when truthy), then recurse into
`children` and `signatures` with the full path as parent path. -/
def buildIndex (st : ParserState) (node : Reflection) (parentPath : List Char) :
    ParserState :=
  match node with
  | .mk i nm k ks cs sgs =>
    let st1 : ParserState := { st with index := mapSet st.index i (.mk i nm k ks cs sgs) }
    let fullPath := joinPath parentPath nm
    let st2 : ParserState := { st1 with pathIndex := mapSet st1.pathIndex fullPath i }
    let nameIds := (mapGet st2.nameIndex nm).getD []
    let st3 : ParserState := { st2 with nameIndex := mapSet st2.nameIndex nm (nameIds ++ [i]) }
    let st4 : ParserState :=
      match k with
      | some kv =>
          if kv = 0 then st3
          else { st3 with kindIndex := mapSet st3.kindIndex kv ((mapGet st3.kindIndex kv).getD [] ++ [i]) }
      | none => st3
    let st5 := buildIndexList st4 cs fullPath
    buildIndexList st5 sgs fullPath

/-- Folding `buildIndex` over a list of child (or signature) nodes, in
order, as the two `for` loops of the source do. -/
def buildIndexList (st : ParserState) (nodes : List Reflection) (parentPath : List Char) :
    ParserState :=
  match nodes with
  | [] => st
  | c :: rest => buildIndexList (buildIndex st c parentPath) rest parentPath
end

/-- The load operation `TypeDocParser.parse` after a successful read of the
document: build all indices from the root with an empty parent path. -/
def parse (root : Reflection) : ParserState :=
  buildIndex initState root []

/-- The `kindMap` lookup of `TypeDocParser.getKindString`, with `Unknown`
for any kind not in the map (an absent kind indexes as `undefined` and also
falls through to `Unknown`). -/
def getKindString (kind : Option Nat) : List Char :=
  match kind with
  | some 2 => [ 'M', 'o', 'd', 'u', 'l', 'e' ]
  | some 4 => [ 'N', 'a', 'm', 'e', 's', 'p', 'a', 'c', 'e' ]
  | some 8 => [ 'E', 'n', 'u', 'm' ]
  | some 32 => [ 'V', 'a', 'r', 'i', 'a', 'b', 'l', 'e' ]
  | some 64 => [ 'F', 'u', 'n', 'c', 't', 'i', 'o', 'n' ]
  | some 128 => [ 'C', 'l', 'a', 's', 's' ]
  | some 256 => [ 'I', 'n', 't', 'e', 'r', 'f', 'a', 'c', 'e' ]
  | some 512 => [ 'C', 'o', 'n', 's', 't', 'r', 'u', 'c', 't', 'o', 'r' ]
  | some 1024 => [ 'P', 'r', 'o', 'p', 'e', 'r', 't', 'y' ]
  | some 2048 => [ 'M', 'e', 't', 'h', 'o', 'd' ]
  | some 2097152 => [ 'T', 'y', 'p', 'e', ' ', 'a', 'l', 'i', 'a', 's' ]
  | _ => [ 'U', 'n', 'k', 'n', 'o', 'w', 'n' ]

/-- Result entry shape `ParsedSymbol`: id, name, human-readable kind label,
computed path and the original reflection. -/
structure ParsedSymbol where
  id : Nat
  name : List Char
  kind : List Char
  path : List Char
  reflection : Reflection

/-- The internal `TypeDocParser.getPath`: scan the Path Index in insertion
order for the first entry whose value is the id of the given reflection and
return its key; fall back to the bare name when no entry matches. -/
def getPath (st : ParserState) (r : Reflection) : List Char :=
  match st.pathIndex.find? (fun e => e.2 = r.id) with
  | some e => e.1
  | none => r.name

/-- The internal `TypeDocParser.createParsedSymbol`: package a reflection
with its resolved path and kind label (`kindString || getKindString(kind)`,
where the empty string is falsy). -/
def createParsedSymbol (st : ParserState) (r : Reflection) : ParsedSymbol :=
  { id := r.id
    name := r.name
    kind := match r.kindString with
      | some s => if s = [] then getKindString r.kind else s
      | none => getKindString r.kind
    path := getPath st r
    reflection := r }

/-- Lowercasing of a string, character by character, as
`String.prototype.toLowerCase` acts on the names occurring here. -/
def lowerStr (s : List Char) : List Char :=
  s.map Char.toLower

/-- Decidable prefix test on character lists (`String.prototype.startsWith`
up to the usual containment decomposition). -/
def isPrefixB : List Char → List Char → Bool
  | [], _ => true
  | _ :: _, [] => false
  | a :: as, b :: bs => a = b && isPrefixB as bs

/-- JavaScript `String.prototype.includes`: the pattern occurs as a
contiguous substring of the haystack. -/
def containsB : List Char → List Char → Bool
  | hay, pat =>
    isPrefixB pat hay ||
      match hay with
      | [] => false
      | _ :: t => containsB t pat

/-- Resolve a list of ids against the ID Index, skipping ids with no entry,
as the `if (reflection)` guards of the query methods do. -/
def resolveIds (st : ParserState) (ids : List Nat) : List ParsedSymbol :=
  ids.filterMap (fun i => (mapGet st.index i).map (createParsedSymbol st))

/-- Query `TypeDocParser.findByName(name, exact)`.  Exact mode resolves the
Name Index bucket of the name; partial mode walks every bucket in map order
and keeps those whose key contains the query as a case-insensitive
substring. -/
def findByName (st : ParserState) (nm : List Char) (exact : Bool) : List ParsedSymbol :=
  if exact then
    resolveIds st ((mapGet st.nameIndex nm).getD [])
  else
    (st.nameIndex.filter (fun e => containsB (lowerStr e.1) (lowerStr nm))).flatMap
      (fun e => resolveIds st e.2)

/-- Query `TypeDocParser.findByPath(path)`.  The guard `if (!id) return
null` treats the id `0` like a missing entry, because `0` is falsy. -/
def findByPath (st : ParserState) (path : List Char) : Option ParsedSymbol :=
  match mapGet st.pathIndex path with
  | none => none
  | some i =>
    if i = 0 then none
    else
      match mapGet st.index i with
      | none => none
      | some r => some (createParsedSymbol st r)

/-- Query `TypeDocParser.findByKind(kind)`: resolve the Kind Index bucket of
the kind. -/
def findByKind (st : ParserState) (kind : Nat) : List ParsedSymbol :=
  resolveIds st ((mapGet st.kindIndex kind).getD [])

/-- Query `TypeDocParser.getById(id)`: the reflection stored in the ID
Index, or an explicit `none`. -/
def getById (st : ParserState) (i : Nat) : Option Reflection :=
  mapGet st.index i

/-- The fixed-shape record returned by `TypeDocParser.getStats`. -/
structure Stats where
  total : Nat
  classes : Nat
  interfaces : Nat
  functions : Nat
  «variables» : Nat
  types : Nat
  enums : Nat
  modules : Nat
deriving DecidableEq

/-- Query `TypeDocParser.getStats()`: the size of the ID Index plus the
lengths of the Kind Index buckets for the seven reported kinds (a missing
bucket counts as `0` via `?.length || 0`). -/
def getStats (st : ParserState) : Stats :=
  { total := st.index.length
    classes := ((mapGet st.kindIndex 128).getD []).length
    interfaces := ((mapGet st.kindIndex 256).getD []).length
    functions := ((mapGet st.kindIndex 64).getD []).length
    «variables» := ((mapGet st.kindIndex 32).getD []).length
    types := ((mapGet st.kindIndex 2097152).getD []).length
    enums := ((mapGet st.kindIndex 8).getD []).length
    modules := ((mapGet st.kindIndex 2).getD []).length }

mutual
/-- The traversal order of `buildIndex`, together with the full path each
node receives: the node itself first, then the subtrees of its children,
then the subtrees of its signatures. -/
def pathedNodes (r : Reflection) (parentPath : List Char) :
    List (Reflection × List Char) :=
  match r with
  | .mk i nm k ks cs sgs =>
    let fullPath := joinPath parentPath nm
    (.mk i nm k ks cs sgs, fullPath) ::
      (pathedNodesList cs fullPath ++ pathedNodesList sgs fullPath)

/-- The flattening of `pathedNodes` over a list of sibling subtrees. -/
def pathedNodesList (rs : List Reflection) (parentPath : List Char) :
    List (Reflection × List Char) :=
  match rs with
  | [] => []
  | c :: rest => pathedNodes c parentPath ++ pathedNodesList rest parentPath
end

/-- The nodes reachable from the root by `children` and `signatures` edges,
in the discovery order of the load traversal. -/
def visited (root : Reflection) : List Reflection :=
  (pathedNodes root []).map Prod.fst

section MapLemmas

variable {α β γ : Type} [DecidableEq α]

theorem mapGet_mapSet (m : List (α × β)) (k a : α) (v : β) :
    mapGet (mapSet m k v) a = if k = a then some v else mapGet m a := by
  induction m with
  | nil => simp [mapSet, mapGet]
  | cons e rest ih =>
    obtain ⟨k1, v1⟩ := e
    by_cases hk : k1 = k
    · subst hk
      by_cases ha : k1 = a <;> simp [mapSet, mapGet, ha]
    · by_cases ha : k1 = a
      · subst ha
        have : ¬ k = k1 := fun h => hk h.symm
        simp [mapSet, mapGet, hk, this]
      · simp [mapSet, mapGet, hk, ha, ih]

theorem mapGet_eq_none_iff (m : List (α × β)) (a : α) :
    mapGet m a = none ↔ ∀ e ∈ m, e.1 ≠ a := by
  induction m with
  | nil => simp [mapGet]
  | cons e rest ih =>
    obtain ⟨k1, v1⟩ := e
    by_cases ha : k1 = a <;> simp [mapGet, ha, ih]

theorem mem_of_mapGet_eq_some {m : List (α × β)} {a : α} {b : β}
    (h : mapGet m a = some b) : (a, b) ∈ m := by
  induction m with
  | nil => simp [mapGet] at h
  | cons e rest ih =>
    obtain ⟨k1, v1⟩ := e
    by_cases ha : k1 = a
    · subst ha
      simp [mapGet] at h
      simp [h]
    · simp [mapGet, ha] at h
      simp [ih h]

theorem mapGet_eq_some_of_mem {m : List (α × β)} {a : α} {b : β}
    (hn : (m.map Prod.fst).Nodup) (h : (a, b) ∈ m) : mapGet m a = some b := by
  induction m with
  | nil => simp at h
  | cons e rest ih =>
    obtain ⟨k1, v1⟩ := e
    have hk1 : k1 ∉ rest.map Prod.fst := (List.nodup_cons.mp (by simpa using hn)).1
    have hnd : (rest.map Prod.fst).Nodup := (List.nodup_cons.mp (by simpa using hn)).2
    rcases List.mem_cons.mp h with h1 | h1
    · obtain ⟨h1a, h1b⟩ := Prod.mk.injEq .. ▸ h1
      subst h1a; subst h1b
      simp [mapGet]
    · have hne : k1 ≠ a := by
        intro hEq
        exact hk1 (hEq ▸ List.mem_map_of_mem Prod.fst h1)
      simp [mapGet, hne, ih hnd h1]

theorem mapSet_of_fresh {m : List (α × β)} {k : α} (v : β)
    (h : ∀ e ∈ m, e.1 ≠ k) : mapSet m k v = m ++ [(k, v)] := by
  induction m with
  | nil => simp [mapSet]
  | cons e rest ih =>
    obtain ⟨k1, v1⟩ := e
    have hne : k1 ≠ k := h (k1, v1) (by simp)
    simp only [mapSet, if_neg hne, List.cons_append, List.cons.injEq, true_and]
    exact ih (fun e he => h e (by simp [he]))

theorem map_fst_mapSet (m : List (α × β)) (k : α) (v : β) :
    (mapSet m k v).map Prod.fst =
      if k ∈ m.map Prod.fst then m.map Prod.fst else m.map Prod.fst ++ [k] := by
  induction m with
  | nil => simp [mapSet]
  | cons e rest ih =>
    obtain ⟨k1, v1⟩ := e
    by_cases hk : k1 = k
    · subst hk
      simp [mapSet]
    · have : ¬ k = k1 := fun h => hk h.symm
      by_cases hmem : k ∈ rest.map Prod.fst <;>
        simp [mapSet, hk, this, hmem, ih]

theorem nodup_map_fst_mapSet {m : List (α × β)} (k : α) (v : β)
    (hn : (m.map Prod.fst).Nodup) : ((mapSet m k v).map Prod.fst).Nodup := by
  rw [map_fst_mapSet]
  by_cases hmem : k ∈ m.map Prod.fst
  · simpa [hmem] using hn
  · simp only [hmem, if_false]
    exact List.Nodup.append hn (List.nodup_singleton k)
      (fun a ha hb => hmem ((List.mem_singleton.mp hb) ▸ ha))

theorem mapGet_map_mk (l : List γ) (key : γ → α) (val : γ → β) (a : α) :
    mapGet (l.map (fun x => (key x, val x))) a =
      (l.find? (fun x => key x = a)).map val := by
  induction l with
  | nil => simp [mapGet]
  | cons x rest ih =>
    by_cases hx : key x = a
    · simp [mapGet, List.find?, hx]
    · simp [mapGet, List.find?, hx, ih]

theorem find?_eq_some_of_unique {l : List γ} {p : γ → Bool} {a : γ}
    (ha : a ∈ l) (hpa : p a = true) (huniq : ∀ x ∈ l, p x = true → x = a) :
    l.find? p = some a := by
  induction l with
  | nil => simp at ha
  | cons x rest ih =>
    by_cases hx : p x = true
    · have hxa : x = a := huniq x (List.mem_cons_self x rest) hx
      subst hxa
      rw [List.find?_cons_of_pos _ hx]
    · have hxa : x ≠ a := fun h => hx (by rw [h]; exact hpa)
      have ha2 : a ∈ rest := by
        rcases List.mem_cons.mp ha with h1 | h1
        · exact absurd h1 (Ne.symm hxa)
        · exact h1
      rw [List.find?_cons_of_neg _ hx]
      exact ih ha2 (fun y hy hpy => huniq y (List.mem_cons_of_mem x hy) hpy)

end MapLemmas

/-- Effect of visiting a single (node, full path) pair on the ID Index. -/
def setIdx (m : List (Nat × Reflection)) (e : Reflection × List Char) : List (Nat × Reflection) :=
  mapSet m e.1.id e.1

/-- Effect of visiting a single (node, full path) pair on the Name Index. -/
def setName (m : List (List Char × List Nat)) (e : Reflection × List Char) :
    List (List Char × List Nat) :=
  mapSet m e.1.name ((mapGet m e.1.name).getD [] ++ [e.1.id])

/-- Effect of visiting a single (node, full path) pair on the Path Index. -/
def setPath (m : List (List Char × Nat)) (e : Reflection × List Char) :
    List (List Char × Nat) :=
  mapSet m e.2 e.1.id

/-- Effect of visiting a single (node, full path) pair on the Kind Index;
a falsy kind (absent or `0`) leaves it untouched. -/
def setKind (m : List (Nat × List Nat)) (e : Reflection × List Char) : List (Nat × List Nat) :=
  match e.1.kind with
  | some kv => if kv = 0 then m else mapSet m kv ((mapGet m kv).getD [] ++ [e.1.id])
  | none => m

/-- Effect of one `buildIndex` visit on the whole parser state, laid out
exactly as the sequence of index updates in the source body. -/
def stepAll (st : ParserState) (e : Reflection × List Char) : ParserState :=
  let st1 : ParserState := { st with index := mapSet st.index e.1.id e.1 }
  let st2 : ParserState := { st1 with pathIndex := mapSet st1.pathIndex e.2 e.1.id }
  let st3 : ParserState :=
    { st2 with nameIndex := mapSet st2.nameIndex e.1.name ((mapGet st2.nameIndex e.1.name).getD [] ++ [e.1.id]) }
  match e.1.kind with
  | some kv =>
      if kv = 0 then st3
      else { st3 with kindIndex := mapSet st3.kindIndex kv ((mapGet st3.kindIndex kv).getD [] ++ [e.1.id]) }
  | none => st3

mutual
theorem buildIndex_eq_foldl (st : ParserState) (node : Reflection) (pp : List Char) :
    buildIndex st node pp = (pathedNodes node pp).foldl stepAll st := by
  match node with
  | .mk i nm k ks cs sgs =>
    show buildIndexList
        (buildIndexList (stepAll st (.mk i nm k ks cs sgs, joinPath pp nm)) cs (joinPath pp nm))
        sgs (joinPath pp nm) = _
    rw [buildIndexList_eq_foldl, buildIndexList_eq_foldl, pathedNodes]
    simp only [List.foldl_cons, List.foldl_append]

theorem buildIndexList_eq_foldl (st : ParserState) (ns : List Reflection) (pp : List Char) :
    buildIndexList st ns pp = (pathedNodesList ns pp).foldl stepAll st := by
  match ns with
  | [] => rfl
  | c :: rest =>
    rw [buildIndexList, pathedNodesList, buildIndex_eq_foldl, buildIndexList_eq_foldl,
      List.foldl_append]
end

theorem stepAll_index (st : ParserState) (e : Reflection × List Char) :
    (stepAll st e).index = setIdx st.index e := by
  cases hk : e.1.kind with
  | none => simp [stepAll, setIdx, hk]
  | some kv => by_cases h0 : kv = 0 <;> simp [stepAll, setIdx, hk, h0]

theorem stepAll_nameIndex (st : ParserState) (e : Reflection × List Char) :
    (stepAll st e).nameIndex = setName st.nameIndex e := by
  cases hk : e.1.kind with
  | none => simp [stepAll, setName, hk]
  | some kv => by_cases h0 : kv = 0 <;> simp [stepAll, setName, hk, h0]

theorem stepAll_pathIndex (st : ParserState) (e : Reflection × List Char) :
    (stepAll st e).pathIndex = setPath st.pathIndex e := by
  cases hk : e.1.kind with
  | none => simp [stepAll, setPath, hk]
  | some kv => by_cases h0 : kv = 0 <;> simp [stepAll, setPath, hk, h0]

theorem stepAll_kindIndex (st : ParserState) (e : Reflection × List Char) :
    (stepAll st e).kindIndex = setKind st.kindIndex e := by
  cases hk : e.1.kind with
  | none => simp [stepAll, setKind, hk]
  | some kv => by_cases h0 : kv = 0 <;> simp [stepAll, setKind, hk, h0]

theorem foldl_stepAll_index (es : List (Reflection × List Char)) (st : ParserState) :
    (es.foldl stepAll st).index = es.foldl setIdx st.index := by
  induction es generalizing st with
  | nil => rfl
  | cons e rest ih => simp [List.foldl_cons, ih, stepAll_index]

theorem foldl_stepAll_nameIndex (es : List (Reflection × List Char)) (st : ParserState) :
    (es.foldl stepAll st).nameIndex = es.foldl setName st.nameIndex := by
  induction es generalizing st with
  | nil => rfl
  | cons e rest ih => simp [List.foldl_cons, ih, stepAll_nameIndex]

theorem foldl_stepAll_pathIndex (es : List (Reflection × List Char)) (st : ParserState) :
    (es.foldl stepAll st).pathIndex = es.foldl setPath st.pathIndex := by
  induction es generalizing st with
  | nil => rfl
  | cons e rest ih => simp [List.foldl_cons, ih, stepAll_pathIndex]

theorem foldl_stepAll_kindIndex (es : List (Reflection × List Char)) (st : ParserState) :
    (es.foldl stepAll st).kindIndex = es.foldl setKind st.kindIndex := by
  induction es generalizing st with
  | nil => rfl
  | cons e rest ih => simp [List.foldl_cons, ih, stepAll_kindIndex]

theorem foldl_setIdx_eq_append {es : List (Reflection × List Char)}
    {m : List (Nat × Reflection)}
    (hfresh : ∀ e ∈ es, ∀ q ∈ m, q.1 ≠ e.1.id)
    (hnd : (es.map (fun e => e.1.id)).Nodup) :
    es.foldl setIdx m = m ++ es.map (fun e => (e.1.id, e.1)) := by
  induction es generalizing m with
  | nil => simp
  | cons e rest ih =>
    simp only [List.map_cons, List.nodup_cons, List.mem_map] at hnd
    have hstep : setIdx m e = m ++ [(e.1.id, e.1)] :=
      mapSet_of_fresh e.1 (fun q hq => hfresh e (by simp) q hq)
    have hfresh2 : ∀ f ∈ rest, ∀ q ∈ m ++ [(e.1.id, e.1)], q.1 ≠ f.1.id := by
      intro f hf q hq
      rcases List.mem_append.mp hq with hq | hq
      · exact hfresh f (by simp [hf]) q hq
      · have hq1 : q = (e.1.id, e.1) := List.mem_singleton.mp hq
        subst hq1
        intro hcontra
        exact hnd.1 ⟨f, hf, hcontra.symm⟩
    calc (e :: rest).foldl setIdx m = rest.foldl setIdx (setIdx m e) := rfl
      _ = (m ++ [(e.1.id, e.1)]) ++ rest.map (fun f => (f.1.id, f.1)) := by
          rw [hstep]; exact ih hfresh2 hnd.2
      _ = m ++ (e :: rest).map (fun f => (f.1.id, f.1)) := by simp

theorem foldl_setName_getD (es : List (Reflection × List Char))
    (m : List (List Char × List Nat)) (nm : List Char) :
    (mapGet (es.foldl setName m) nm).getD [] =
      (mapGet m nm).getD [] ++ (es.filter (fun e => e.1.name = nm)).map (fun e => e.1.id) := by
  induction es generalizing m with
  | nil => simp
  | cons e rest ih =>
    by_cases h : e.1.name = nm
    · have hstep : (mapGet (setName m e) nm).getD [] = (mapGet m nm).getD [] ++ [e.1.id] := by
        simp [setName, mapGet_mapSet, h]
      calc (mapGet ((e :: rest).foldl setName m) nm).getD []
          = (mapGet (rest.foldl setName (setName m e)) nm).getD [] := rfl
        _ = (mapGet (setName m e) nm).getD [] ++
              (rest.filter (fun f => f.1.name = nm)).map (fun f => f.1.id) := ih _
        _ = (mapGet m nm).getD [] ++
              ((e :: rest).filter (fun f => f.1.name = nm)).map (fun f => f.1.id) := by
            rw [hstep]; simp [List.filter_cons, h]
    · have hstep : mapGet (setName m e) nm = mapGet m nm := by
        simp [setName, mapGet_mapSet, h]
      calc (mapGet ((e :: rest).foldl setName m) nm).getD []
          = (mapGet (rest.foldl setName (setName m e)) nm).getD [] := rfl
        _ = (mapGet (setName m e) nm).getD [] ++
              (rest.filter (fun f => f.1.name = nm)).map (fun f => f.1.id) := ih _
        _ = (mapGet m nm).getD [] ++
              ((e :: rest).filter (fun f => f.1.name = nm)).map (fun f => f.1.id) := by
            rw [hstep]; simp [List.filter_cons, h]

theorem foldl_setKind_getD {k : Nat} (hk : k ≠ 0) (es : List (Reflection × List Char))
    (m : List (Nat × List Nat)) :
    (mapGet (es.foldl setKind m) k).getD [] =
      (mapGet m k).getD [] ++ (es.filter (fun e => e.1.kind = some k)).map (fun e => e.1.id) := by
  induction es generalizing m with
  | nil => simp
  | cons e rest ih =>
    have hmain : ∀ m2 : List (Nat × List Nat), (mapGet (setKind m2 e) k).getD [] =
        (mapGet m2 k).getD [] ++ (if e.1.kind = some k then [e.1.id] else []) := by
      intro m2
      cases hek : e.1.kind with
      | none => simp [setKind, hek]
      | some kv =>
        by_cases h0 : kv = 0
        · subst h0
          have : ¬ (some 0 = some k) := by simpa using Ne.symm hk
          simp [setKind, hek, this]
        · by_cases hkv : kv = k
          · subst hkv
            simp [setKind, hek, h0, mapGet_mapSet]
          · have : ¬ (some kv = some k) := by simpa using hkv
            simp [setKind, hek, h0, hkv, mapGet_mapSet, this]
    calc (mapGet ((e :: rest).foldl setKind m) k).getD []
        = (mapGet (rest.foldl setKind (setKind m e)) k).getD [] := rfl
      _ = (mapGet (setKind m e) k).getD [] ++
            (rest.filter (fun f => f.1.kind = some k)).map (fun f => f.1.id) := ih _
      _ = (mapGet m k).getD [] ++
            ((e :: rest).filter (fun f => f.1.kind = some k)).map (fun f => f.1.id) := by
          rw [hmain m]
          by_cases h : e.1.kind = some k <;> simp [List.filter_cons, h]

theorem foldl_setPath_get (es : List (Reflection × List Char))
    (m : List (List Char × Nat)) (p : List Char) :
    mapGet (es.foldl setPath m) p =
      match (es.filter (fun e => e.2 = p)).getLast? with
      | some e => some e.1.id
      | none => mapGet m p := by
  induction es generalizing m with
  | nil => simp
  | cons e rest ih =>
    have hcons : (e :: rest).foldl setPath m = rest.foldl setPath (setPath m e) := rfl
    by_cases h : e.2 = p
    · rw [hcons, ih]
      rcases hrf : rest.filter (fun f => f.2 = p) with _ | ⟨f0, frest⟩
      · have hfilter : (e :: rest).filter (fun f => f.2 = p) = [e] := by
          simp [List.filter_cons, h, hrf]
        rw [hrf, hfilter, List.getLast?_singleton]
        simp [setPath, mapGet_mapSet, h]
      · have hfilter : (e :: rest).filter (fun f => f.2 = p) = e :: f0 :: frest := by
          simp [List.filter_cons, h, hrf]
        rw [hrf, hfilter, List.getLast?_cons_cons]
        rcases hgl : (f0 :: frest).getLast? with _ | g
        · exact absurd (List.getLast?_eq_none_iff.mp hgl) (by simp)
        · simp
    · rw [hcons, ih]
      have hfilter : (e :: rest).filter (fun f => f.2 = p) = rest.filter (fun f => f.2 = p) := by
        simp [List.filter_cons, h]
      rw [hfilter]
      have hget : mapGet (setPath m e) p = mapGet m p := by
        simp [setPath, mapGet_mapSet, h]
      rw [hget]

/-- Sum of the lengths of all buckets of a Kind Index. -/
def sumLens (m : List (Nat × List Nat)) : Nat :=
  (m.map (fun e => e.2.length)).sum

theorem sumLens_mapSet_append (m : List (Nat × List Nat)) (k : Nat) (l : List Nat) :
    sumLens (mapSet m k ((mapGet m k).getD [] ++ l)) = sumLens m + l.length := by
  induction m with
  | nil => simp [mapSet, mapGet, sumLens]
  | cons e rest ih =>
    obtain ⟨k1, v1⟩ := e
    by_cases h : k1 = k
    · subst h
      simp [mapSet, mapGet, sumLens]
      omega
    · have hne : ¬ (k1 = k) := h
      simp only [mapSet, mapGet, if_neg hne, sumLens, List.map_cons, List.sum_cons] at *
      omega

/-- Truthiness of the `kind` field, as tested by `if (node.kind)`. -/
def kindTruthy (n : Reflection) : Bool :=
  match n.kind with
  | some kv => kv != 0
  | none => false

theorem sumLens_setKind (m : List (Nat × List Nat)) (e : Reflection × List Char) :
    sumLens (setKind m e) = sumLens m + (if kindTruthy e.1 then 1 else 0) := by
  cases hek : e.1.kind with
  | none => simp [setKind, kindTruthy, hek]
  | some kv =>
    by_cases h0 : kv = 0
    · subst h0
      simp [setKind, kindTruthy, hek]
    · have ht : kindTruthy e.1 = true := by simp [kindTruthy, hek, h0]
      rw [ht]
      simp only [setKind, hek, if_neg h0, if_true]
      simpa using sumLens_mapSet_append m kv [e.1.id]

theorem foldl_setKind_sumLens (es : List (Reflection × List Char))
    (m : List (Nat × List Nat)) :
    sumLens (es.foldl setKind m) =
      sumLens m + (es.filter (fun e => kindTruthy e.1)).length := by
  induction es generalizing m with
  | nil => simp
  | cons e rest ih =>
    have hcons : (e :: rest).foldl setKind m = rest.foldl setKind (setKind m e) := rfl
    rw [hcons, ih, sumLens_setKind]
    by_cases h : kindTruthy e.1 <;> (simp [List.filter_cons, h]; try omega)

theorem nodup_keys_foldl_setPath (es : List (Reflection × List Char))
    (m : List (List Char × Nat)) (hm : (m.map Prod.fst).Nodup) :
    ((es.foldl setPath m).map Prod.fst).Nodup := by
  induction es generalizing m with
  | nil => exact hm
  | cons e rest ih => exact ih _ (nodup_map_fst_mapSet _ _ hm)

theorem foldl_setKind_get_zero (es : List (Reflection × List Char))
    (m : List (Nat × List Nat)) :
    mapGet (es.foldl setKind m) 0 = mapGet m 0 := by
  induction es generalizing m with
  | nil => rfl
  | cons e rest ih =>
    have hcons : (e :: rest).foldl setKind m = rest.foldl setKind (setKind m e) := rfl
    rw [hcons, ih]
    cases hek : e.1.kind with
    | none => simp [setKind, hek]
    | some kv =>
      by_cases h0 : kv = 0
      · simp [setKind, hek, h0]
      · simp [setKind, hek, h0, mapGet_mapSet]

theorem parse_index (root : Reflection)
    (hnd : ((visited root).map Reflection.id).Nodup) :
    (parse root).index = (visited root).map (fun n => (n.id, n)) := by
  have h1 : (parse root).index = (pathedNodes root []).foldl setIdx [] := by
    rw [parse, buildIndex_eq_foldl]
    exact foldl_stepAll_index _ _
  have hnd2 : ((pathedNodes root []).map (fun e => e.1.id)).Nodup := by
    have : (pathedNodes root []).map (fun e => e.1.id) = (visited root).map Reflection.id := by
      rw [visited, List.map_map]; rfl
    rw [this]; exact hnd
  rw [h1, foldl_setIdx_eq_append (by simp) hnd2, visited, List.map_map]
  simp [Function.comp]

theorem parse_index_get (root : Reflection)
    (hnd : ((visited root).map Reflection.id).Nodup) (i : Nat) :
    mapGet (parse root).index i = (visited root).find? (fun n => n.id = i) := by
  rw [parse_index root hnd]
  have := mapGet_map_mk (visited root) Reflection.id (fun n => n) i
  simpa using this

theorem parse_index_get_self (root : Reflection)
    (hnd : ((visited root).map Reflection.id).Nodup) {n : Reflection}
    (hn : n ∈ visited root) :
    mapGet (parse root).index n.id = some n := by
  rw [parse_index_get root hnd]
  exact find?_eq_some_of_unique hn (by simp)
    (fun x hx hpx => List.inj_on_of_nodup_map hnd hx hn (by simpa using hpx))

theorem parse_nameBucket (root : Reflection) (nm : List Char) :
    (mapGet (parse root).nameIndex nm).getD [] =
      ((visited root).filter (fun n => n.name = nm)).map Reflection.id := by
  have h1 : (parse root).nameIndex = (pathedNodes root []).foldl setName [] := by
    rw [parse, buildIndex_eq_foldl]
    exact foldl_stepAll_nameIndex _ _
  rw [h1, foldl_setName_getD, visited, List.filter_map, List.map_map]
  rfl

theorem parse_kindBucket (root : Reflection) {k : Nat} (hk : k ≠ 0) :
    (mapGet (parse root).kindIndex k).getD [] =
      ((visited root).filter (fun n => n.kind = some k)).map Reflection.id := by
  have h1 : (parse root).kindIndex = (pathedNodes root []).foldl setKind [] := by
    rw [parse, buildIndex_eq_foldl]
    exact foldl_stepAll_kindIndex _ _
  rw [h1, foldl_setKind_getD hk, visited, List.filter_map, List.map_map]
  rfl

theorem parse_kindBucket_zero (root : Reflection) :
    mapGet (parse root).kindIndex 0 = none := by
  have h1 : (parse root).kindIndex = (pathedNodes root []).foldl setKind [] := by
    rw [parse, buildIndex_eq_foldl]
    exact foldl_stepAll_kindIndex _ _
  rw [h1, foldl_setKind_get_zero]
  rfl

theorem parse_sumLens (root : Reflection) :
    sumLens (parse root).kindIndex = ((visited root).filter (fun n => kindTruthy n)).length := by
  have h1 : (parse root).kindIndex = (pathedNodes root []).foldl setKind [] := by
    rw [parse, buildIndex_eq_foldl]
    exact foldl_stepAll_kindIndex _ _
  rw [h1, foldl_setKind_sumLens, visited, List.filter_map, List.length_map]
  have h0 : sumLens ([] : List (Nat × List Nat)) = 0 := rfl
  rw [h0, Nat.zero_add]
  rfl

theorem parse_pathIndex_get (root : Reflection) (p : List Char) :
    mapGet (parse root).pathIndex p =
      match ((pathedNodes root []).filter (fun e => e.2 = p)).getLast? with
      | some e => some e.1.id
      | none => none := by
  have h1 : (parse root).pathIndex = (pathedNodes root []).foldl setPath [] := by
    rw [parse, buildIndex_eq_foldl]
    exact foldl_stepAll_pathIndex _ _
  rw [h1, foldl_setPath_get]
  rfl

theorem parse_pathIndex_nodup_keys (root : Reflection) :
    (((parse root).pathIndex).map Prod.fst).Nodup := by
  have h1 : (parse root).pathIndex = (pathedNodes root []).foldl setPath [] := by
    rw [parse, buildIndex_eq_foldl]
    exact foldl_stepAll_pathIndex _ _
  rw [h1]
  exact nodup_keys_foldl_setPath _ [] (by simp)

theorem isPrefixB_self (l : List Char) : isPrefixB l l = true := by
  induction l with
  | nil => rfl
  | cons a rest ih => simp [isPrefixB, ih]

theorem containsB_self (l : List Char) : containsB l l = true := by
  cases l with
  | nil => rfl
  | cons a rest => simp [containsB, isPrefixB_self]

/-- The scenario tree of the specification: `Lib` (module) containing class
`Widget` containing method `render`. -/
def sampleTree : Reflection :=
  .mk 1 "Lib".data (some 2) none
    [ .mk 2 "Widget".data (some 128) none
        [ .mk 3 "render".data (some 2048) none [] [] ] [] ] []

/-- The `Widget` child of `sampleTree`, for reuse in witnesses. -/
def sampleWidget : Reflection :=
  .mk 2 "Widget".data (some 128) none
    [ .mk 3 "render".data (some 2048) none [] [] ] []

/-- The collision scenario of the specification: two same-named children
under `Lib`, both computing the path `Lib.Widget`. -/
def widgetA : Reflection := .mk 2 "Widget".data (some 128) none [] []

/-- The later-traversed of the two colliding children. -/
def widgetB : Reflection := .mk 3 "Widget".data (some 128) none [] []

/-- Tree in which `widgetA` and `widgetB` collide on the path `Lib.Widget`. -/
def collTree : Reflection := .mk 1 "Lib".data (some 2) none [widgetA, widgetB] []

/-- C1: for a loaded tree whose node ids are process-unique positive
integers, the ID Index holds exactly one entry per node reachable through
`children` and `signatures` edges, keyed by the node's own id, in traversal
order, and nothing else. -/
theorem c1_id_index_exact (root : Reflection)
    (hnd : ((visited root).map Reflection.id).Nodup)
    (_hpos : ∀ n ∈ visited root, 0 < n.id) :
    (parse root).index = (visited root).map (fun n => (n.id, n)) :=
  parse_index root hnd

theorem c1_witness :
    ((visited sampleTree).map Reflection.id).Nodup ∧
      (parse sampleTree).index = (visited sampleTree).map (fun n => (n.id, n)) :=
  ⟨by decide, c1_id_index_exact sampleTree (by decide) (by decide)⟩

/-- C3 counterexample: invoked before any load, the query operations return
empty-success results (empty lists, `none`, zero counts) rather than a
NotLoaded error; the query methods of the parser have no error channel at
all, contradicting the claim that a NotLoaded error is returned. -/
theorem c3_counterexample :
    findByName initState [ 'a' ] true = [] ∧
      findByName initState [ 'a' ] false = [] ∧
      findByPath initState [ 'a' ] = none ∧
      findByKind initState 128 = [] ∧
      getById initState 1 = none ∧
      getStats initState = ⟨0, 0, 0, 0, 0, 0, 0, 0⟩ :=
  ⟨rfl, rfl, rfl, rfl, rfl, rfl⟩

/-- C3 (amended): every query operation invoked before a successful load
returns an empty-success result — an empty list, `none`, or an all-zero
stats record — without crashing; no NotLoaded error is produced. -/
theorem c3_amended_queries_before_load :
    ∀ (nm p : List Char) (i k : Nat) (b : Bool),
      findByName initState nm b = [] ∧
        findByPath initState p = none ∧
        findByKind initState k = [] ∧
        getById initState i = none ∧
        getStats initState = ⟨0, 0, 0, 0, 0, 0, 0, 0⟩ := by
  intro nm p i k b
  refine ⟨?_, rfl, rfl, rfl, rfl⟩
  cases b <;> rfl

/-- C9: lookup by identifier is total and returns the exact reflection that
was indexed under the id during the load traversal, or `none` when no
visited node carries the id. -/
theorem c9_get_by_id (root : Reflection) (i : Nat)
    (hnd : ((visited root).map Reflection.id).Nodup) :
    getById (parse root) i = (visited root).find? (fun n => n.id = i) := by
  rw [getById]
  exact parse_index_get root hnd i

theorem c9_witness :
    getById (parse sampleTree) 2 = (visited sampleTree).find? (fun n => n.id = 2) :=
  c9_get_by_id sampleTree 2 (by decide)

/-- C10: for a node whose id occurs nowhere among the values of the Path
Index, the path-resolution helper falls back to the bare name, and the
query result entry built for the node carries that bare name as its path. -/
theorem c10_bare_name_fallback (st : ParserState) (n : Reflection)
    (h : ∀ e ∈ st.pathIndex, e.2 ≠ n.id) :
    getPath st n = n.name ∧ (createParsedSymbol st n).path = n.name := by
  have hf : st.pathIndex.find? (fun e => e.2 = n.id) = none :=
    List.find?_eq_none.mpr (fun x hx => by simpa using h x hx)
  constructor
  · rw [getPath, hf]
  · show getPath st n = n.name
    rw [getPath, hf]

theorem c10_witness :
    getPath (parse collTree) widgetA = widgetA.name ∧
      (createParsedSymbol (parse collTree) widgetA).path = widgetA.name :=
  c10_bare_name_fallback (parse collTree) widgetA (by decide)

/-- C4: exact-mode find-by-name on a loaded tree returns exactly one entry
per visited node whose name equals the query, in the discovery order of the
traversal. -/
theorem c4_exact_name (root : Reflection) (nm : List Char)
    (hnd : ((visited root).map Reflection.id).Nodup) :
    findByName (parse root) nm true =
      ((visited root).filter (fun n => n.name = nm)).map
        (createParsedSymbol (parse root)) := by
  have hbucket := parse_nameBucket root nm
  show resolveIds (parse root) ((mapGet (parse root).nameIndex nm).getD []) = _
  rw [hbucket, resolveIds, List.filterMap_map]
  have hcongr : ∀ x ∈ (visited root).filter (fun n => n.name = nm),
      ((fun i => (mapGet (parse root).index i).map (createParsedSymbol (parse root))) ∘
          Reflection.id) x = (some ∘ createParsedSymbol (parse root)) x := by
    intro x hx
    have hxv : x ∈ visited root := List.mem_of_mem_filter hx
    simp [Function.comp, parse_index_get_self root hnd hxv]
  rw [List.filterMap_congr hcongr, List.filterMap_eq_map]

theorem c4_witness :
    findByName (parse sampleTree) ('r' :: "ender".data) true =
      ((visited sampleTree).filter (fun n => n.name = 'r' :: "ender".data)).map
        (createParsedSymbol (parse sampleTree)) :=
  c4_exact_name sampleTree ('r' :: "ender".data) (by decide)

/-- C5: partial-mode find-by-name matches by case-insensitive substring
containment — two queries with the same lowercasing give identical results —
and its result list contains every entry of the exact-mode result for the
same query string. -/
theorem c5_partial_superset (st : ParserState) (nm nm2 : List Char)
    (hlow : lowerStr nm = lowerStr nm2) :
    findByName st nm false = findByName st nm2 false ∧
      ∀ x ∈ findByName st nm true, x ∈ findByName st nm false := by
  constructor
  · show (st.nameIndex.filter (fun e => containsB (lowerStr e.1) (lowerStr nm))).flatMap
        (fun e => resolveIds st e.2) =
      (st.nameIndex.filter (fun e => containsB (lowerStr e.1) (lowerStr nm2))).flatMap
        (fun e => resolveIds st e.2)
    rw [hlow]
  · intro x hx
    replace hx : x ∈ resolveIds st ((mapGet st.nameIndex nm).getD []) := hx
    cases hget : mapGet st.nameIndex nm with
    | none =>
      rw [hget] at hx
      simp [resolveIds] at hx
    | some ids =>
      rw [hget] at hx
      have hmem : (nm, ids) ∈ st.nameIndex := mem_of_mapGet_eq_some hget
      show x ∈ (st.nameIndex.filter
          (fun e => containsB (lowerStr e.1) (lowerStr nm))).flatMap
          (fun e => resolveIds st e.2)
      refine List.mem_flatMap.mpr ⟨(nm, ids), List.mem_filter.mpr ⟨hmem, ?_⟩, ?_⟩
      · simpa using containsB_self (lowerStr nm)
      · simpa using hx

theorem c5_witness :
    (findByName (parse collTree) ('W' :: "ID".data) false =
        findByName (parse collTree) ('w' :: "id".data) false) ∧
      ∀ x ∈ findByName (parse collTree) ('W' :: "ID".data) true,
        x ∈ findByName (parse collTree) ('W' :: "ID".data) false :=
  c5_partial_superset (parse collTree) ('W' :: "ID".data) ('w' :: "id".data) (by decide)

/-- C6: a visited node's id is appended to the Kind Index bucket of its kind
exactly when the kind is present (given that no node carries the invalid
kind tag `0`), and the bucket sizes sum to the number of visited nodes
carrying a defined kind. -/
theorem c6_kind_buckets (root : Reflection)
    (hk : ∀ n ∈ visited root, n.kind ≠ some 0) :
    (∀ k, (mapGet (parse root).kindIndex k).getD [] =
        ((visited root).filter (fun n => n.kind = some k)).map Reflection.id) ∧
      sumLens (parse root).kindIndex =
        ((visited root).filter (fun n => n.kind.isSome)).length := by
  constructor
  · intro k
    by_cases h0 : k = 0
    · subst h0
      rw [parse_kindBucket_zero]
      have hnil : (visited root).filter (fun n => n.kind = some 0) = [] :=
        List.filter_eq_nil_iff.mpr (fun n hn => by simpa using hk n hn)
      simp [hnil]
    · exact parse_kindBucket root h0
  · rw [parse_sumLens]
    congr 1
    apply List.filter_congr
    intro n hn
    cases hkn : n.kind with
    | none => simp [kindTruthy, hkn]
    | some kv =>
      have hkv : kv ≠ 0 := by
        intro hc
        exact hk n hn (by rw [hkn, hc])
      simp [kindTruthy, hkn, hkv]

theorem c6_witness :
    (∀ k, (mapGet (parse sampleTree).kindIndex k).getD [] =
        ((visited sampleTree).filter (fun n => n.kind = some k)).map Reflection.id) ∧
      sumLens (parse sampleTree).kindIndex =
        ((visited sampleTree).filter (fun n => n.kind.isSome)).length :=
  c6_kind_buckets sampleTree (by decide)

/-- C7: the stats record always reports the live size of the ID Index as
`total` (zero before any load) and the live lengths of the seven Kind Index
buckets as the per-kind counts; after a load of a tree with unique ids these
equal the visited-node counts of the most recent load. -/
theorem c7_stats_record (root : Reflection)
    (hnd : ((visited root).map Reflection.id).Nodup) :
    getStats initState = ⟨0, 0, 0, 0, 0, 0, 0, 0⟩ ∧
      (∀ st : ParserState, getStats st =
        ⟨st.index.length,
         ((mapGet st.kindIndex 128).getD []).length,
         ((mapGet st.kindIndex 256).getD []).length,
         ((mapGet st.kindIndex 64).getD []).length,
         ((mapGet st.kindIndex 32).getD []).length,
         ((mapGet st.kindIndex 2097152).getD []).length,
         ((mapGet st.kindIndex 8).getD []).length,
         ((mapGet st.kindIndex 2).getD []).length⟩) ∧
      getStats (parse root) =
        ⟨(visited root).length,
         ((visited root).filter (fun n => n.kind = some 128)).length,
         ((visited root).filter (fun n => n.kind = some 256)).length,
         ((visited root).filter (fun n => n.kind = some 64)).length,
         ((visited root).filter (fun n => n.kind = some 32)).length,
         ((visited root).filter (fun n => n.kind = some 2097152)).length,
         ((visited root).filter (fun n => n.kind = some 8)).length,
         ((visited root).filter (fun n => n.kind = some 2)).length⟩ := by
  refine ⟨rfl, fun st => rfl, ?_⟩
  have htotal : (parse root).index.length = (visited root).length := by
    rw [parse_index root hnd, List.length_map]
  have hc : ∀ k : Nat, k ≠ 0 →
      ((mapGet (parse root).kindIndex k).getD []).length =
        ((visited root).filter (fun n => n.kind = some k)).length := by
    intro k hk
    rw [parse_kindBucket root hk, List.length_map]
  simp only [getStats]
  rw [htotal, hc 128 (by decide), hc 256 (by decide), hc 64 (by decide), hc 32 (by decide),
    hc 2097152 (by decide), hc 8 (by decide), hc 2 (by decide)]

theorem c7_witness :
    getStats initState = ⟨0, 0, 0, 0, 0, 0, 0, 0⟩ ∧
      (∀ st : ParserState, getStats st =
        ⟨st.index.length,
         ((mapGet st.kindIndex 128).getD []).length,
         ((mapGet st.kindIndex 256).getD []).length,
         ((mapGet st.kindIndex 64).getD []).length,
         ((mapGet st.kindIndex 32).getD []).length,
         ((mapGet st.kindIndex 2097152).getD []).length,
         ((mapGet st.kindIndex 8).getD []).length,
         ((mapGet st.kindIndex 2).getD []).length⟩) ∧
      getStats (parse sampleTree) =
        ⟨(visited sampleTree).length,
         ((visited sampleTree).filter (fun n => n.kind = some 128)).length,
         ((visited sampleTree).filter (fun n => n.kind = some 256)).length,
         ((visited sampleTree).filter (fun n => n.kind = some 64)).length,
         ((visited sampleTree).filter (fun n => n.kind = some 32)).length,
         ((visited sampleTree).filter (fun n => n.kind = some 2097152)).length,
         ((visited sampleTree).filter (fun n => n.kind = some 8)).length,
         ((visited sampleTree).filter (fun n => n.kind = some 2)).length⟩ :=
  c7_stats_record sampleTree (by decide)

/-- C2: paths are computed as `parentPath + "." + name` (bare `name` when
the parent path is empty); when several visited nodes compute the same path
string, the Path Index retains only the id of the last-traversed one, and
find-by-path on that path returns that later node. -/
theorem c2_path_overwrite (root : Reflection) (p : List Char)
    (hnd : ((visited root).map Reflection.id).Nodup)
    (hpos : ∀ n ∈ visited root, 0 < n.id) :
    (∀ pp nm, joinPath pp nm = if pp = [] then nm else pp ++ ('.' :: nm)) ∧
      ∀ e, ((pathedNodes root []).filter (fun x => x.2 = p)).getLast? = some e →
        mapGet (parse root).pathIndex p = some e.1.id ∧
          findByPath (parse root) p = some (createParsedSymbol (parse root) e.1) := by
  refine ⟨fun pp nm => rfl, ?_⟩
  intro e hlast
  have hget : mapGet (parse root).pathIndex p = some e.1.id := by
    rw [parse_pathIndex_get, hlast]
  have hmemf : e ∈ (pathedNodes root []).filter (fun x => x.2 = p) :=
    List.mem_of_mem_getLast? (Option.mem_def.mpr hlast)
  have hmemp : e ∈ pathedNodes root [] := List.mem_of_mem_filter hmemf
  have hvis : e.1 ∈ visited root := List.mem_map_of_mem Prod.fst hmemp
  have hpos1 : ¬ (e.1.id = 0) := by
    have := hpos e.1 hvis
    omega
  have hidx : mapGet (parse root).index e.1.id = some e.1 :=
    parse_index_get_self root hnd hvis
  exact ⟨hget, by simp [findByPath, hget, hpos1, hidx]⟩

theorem c2_witness :
    mapGet (parse collTree).pathIndex ('L' :: "ib.Widget".data) = some widgetB.id ∧
      findByPath (parse collTree) ('L' :: "ib.Widget".data) =
        some (createParsedSymbol (parse collTree) widgetB) :=
  (c2_path_overwrite collTree ('L' :: "ib.Widget".data) (by decide) (by decide)).2
    (widgetB, 'L' :: "ib.Widget".data) rfl

/-- C8: for an indexed node whose path entry was not overwritten by a
later-traversed node with the same computed path, feeding the result of the
path-resolution helper into find-by-path returns that very node. -/
theorem c8_roundtrip (root : Reflection) (n : Reflection) (p : List Char)
    (hnd : ((visited root).map Reflection.id).Nodup)
    (hpos : ∀ m ∈ visited root, 0 < m.id)
    (hmem : (n, p) ∈ pathedNodes root [])
    (hlast : ((pathedNodes root []).filter (fun e => e.2 = p)).getLast? = some (n, p)) :
    findByPath (parse root) (getPath (parse root) n) =
      some (createParsedSymbol (parse root) n) := by
  have hvis : n ∈ visited root := List.mem_map_of_mem Prod.fst hmem
  have hget : mapGet (parse root).pathIndex p = some n.id := by
    rw [parse_pathIndex_get, hlast]
  have hmemPI : (p, n.id) ∈ (parse root).pathIndex := mem_of_mapGet_eq_some hget
  have hndE : ((pathedNodes root []).map (fun e => e.1.id)).Nodup := by
    have heq : (pathedNodes root []).map (fun e => e.1.id) =
        (visited root).map Reflection.id := by
      rw [visited, List.map_map]
      rfl
    rw [heq]
    exact hnd
  have huniq : ∀ q ∈ (parse root).pathIndex,
      (fun e => decide (e.2 = n.id)) q = true → q = (p, n.id) := by
    intro q hq hq2
    have hq2' : q.2 = n.id := by simpa using hq2
    have hqget : mapGet (parse root).pathIndex q.1 = some q.2 := by
      apply mapGet_eq_some_of_mem (parse_pathIndex_nodup_keys root)
      simpa using hq
    rw [parse_pathIndex_get] at hqget
    rcases hql : ((pathedNodes root []).filter (fun e => e.2 = q.1)).getLast? with _ | f
    · rw [hql] at hqget
      cases hqget
    · rw [hql] at hqget
      have hfid : f.1.id = q.2 := by
        simpa using hqget
      have hfmemf : f ∈ (pathedNodes root []).filter (fun e => e.2 = q.1) :=
        List.mem_of_mem_getLast? (Option.mem_def.mpr hql)
      have hfp : f.2 = q.1 := by
        simpa using (List.mem_filter.mp hfmemf).2
      have hfmem : f ∈ pathedNodes root [] := List.mem_of_mem_filter hfmemf
      have hfn : f = (n, p) :=
        List.inj_on_of_nodup_map hndE hfmem hmem (by rw [hfid, hq2'])
      have hq1 : q.1 = p := by
        rw [← hfp, hfn]
      calc q = (q.1, q.2) := rfl
        _ = (p, n.id) := by rw [hq1, hq2']
  have hfind : (parse root).pathIndex.find? (fun e => e.2 = n.id) = some (p, n.id) :=
    find?_eq_some_of_unique hmemPI (by simp) huniq
  have hgp : getPath (parse root) n = p := by
    rw [getPath, hfind]
  rw [hgp]
  have hpos1 : ¬ (n.id = 0) := by
    have := hpos n hvis
    omega
  have hidx : mapGet (parse root).index n.id = some n :=
    parse_index_get_self root hnd hvis
  simp [findByPath, hget, hpos1, hidx]

theorem c8_witness :
    findByPath (parse sampleTree) (getPath (parse sampleTree) sampleWidget) =
      some (createParsedSymbol (parse sampleTree) sampleWidget) := by
  apply c8_roundtrip sampleTree sampleWidget ('L' :: "ib.Widget".data)
    (by decide) (by decide)
  · show (sampleWidget, 'L' :: "ib.Widget".data) ∈ pathedNodes sampleTree []
    simp [pathedNodes, pathedNodesList, sampleTree, sampleWidget, joinPath]
  · rfl

end TsdocMcp
